import Mathlib

/-!
Formal model of the NexusTrader execution and connector runtime.

Each definition is a shallow embedding of one function of the repository
(amounts and prices are embedded as exact rationals, Python dictionaries as
association structures, raised exceptions as `Except`).  Definitions whose
backing module is absent from the source tree are explicitly marked
`Modelled from the spec:` in their doc comment.
-/

/- ---------------------------------------------------------------------
TWAP slicing (EMS)
--------------------------------------------------------------------- -/

/-- Modelled from the spec: the TWAP slice sequence exactly as §4.M words it.
`n = floor(T/U)` full slices of `U`, remainder `r = T - n*U`; if `r < U` and
not reduce-only the remainder is merged into the last slice (final slice
`U + r`); if reduce-only and `r > 0` a final slice of exactly `r` is appended;
a sub-minimum total gives `[]` (not reduce-only) or `[T]` (reduce-only). -/
def specTwapSlices (T U : ℚ) (reduceOnly : Bool) : List ℚ :=
  if T < U then
    if reduceOnly then [T] else []
  else
    let n : ℕ := ⌊T / U⌋₊
    let r : ℚ := T - n * U
    if reduceOnly then
      if 0 < r then List.replicate n U ++ [r] else List.replicate n U
    else
      if 0 < r then List.replicate (n - 1) U ++ [U + r] else List.replicate n U

/-- Modelled from the spec: `ExecutionManagementSystem._calculate_twap_orders`
(the base EMS module is not under the source tree; only its unit test is).
Arguments: total amount `T`, minimum order amount `U`, amount precision `lot`,
duration `D`, minimum inter-slice wait `W`.  Returns the slice list and the
inter-slice delay `max(D/k, W)` for `k` returned slices.  The spec algorithm
of §4.M gives the slice list; when the spec slices cannot be spaced more than
`W` apart within `D` (the wait cap), the total is instead spread over
`floor(D/W)` slices of size `ceil(T/count)` quantised up to `lot`, remainder
last — this branch is reconstructed from the expectations of
`test_cal_twap_orders` in src/test/base/test_execution_ems.py (the rows with
`wait=5`).  A sub-minimum reduce-only total returns `([T], 0)` and a
sub-minimum total otherwise returns `([], 0)`, delays included, per the same
test rows. -/
def calculate_twap_orders (T U lot D W : ℚ) (reduceOnly : Bool) : List ℚ × ℚ :=
  if T < U then
    if reduceOnly then ([T], 0) else ([], 0)
  else
    let n : ℕ := ⌊T / U⌋₊
    let r : ℚ := T - n * U
    let slices : List ℚ :=
      if reduceOnly then
        if 0 < r then List.replicate n U ++ [r] else List.replicate n U
      else
        if 0 < r then List.replicate (n - 1) U ++ [U + r] else List.replicate n U
    let final : List ℚ :=
      if W * slices.length < D then slices
      else
        let m : ℕ := ⌊D / W⌋₊
        let q : ℚ := ⌈T / m / lot⌉ * lot
        List.replicate (m - 1) q ++ [T - (m - 1) * q]
    (final, max (D / (final.length : ℚ)) W)

/-- The model reproduces every row of `test_cal_twap_orders`
(src/test/base/test_execution_ems.py), with `U = 0.002` and `lot = 0.001` as
set up by the test fixture (`amount.min * 2` and the amount precision of
`BTCUSDT-PERP.BINANCE`). -/
theorem calculate_twap_orders_unit_tests :
    calculate_twap_orders 0.001 0.002 0.001 10 1 false = ([], 0)
    ∧ calculate_twap_orders 0.001 0.002 0.001 10 1 true = ([0.001], 0)
    ∧ calculate_twap_orders 0.005 0.002 0.001 10 1 false = ([0.002, 0.003], 5)
    ∧ calculate_twap_orders 0.005 0.002 0.001 10 1 true
        = ([0.002, 0.002, 0.001], 10 / 3)
    ∧ calculate_twap_orders 0.005 0.002 0.001 10 5 false = ([0.003, 0.002], 5)
    ∧ calculate_twap_orders 0.005 0.002 0.001 10 5 true = ([0.003, 0.002], 5)
    ∧ calculate_twap_orders 0.009 0.002 0.001 10 1 false
        = ([0.002, 0.002, 0.002, 0.003], 10 / 4)
    ∧ calculate_twap_orders 0.009 0.002 0.001 10 1 true
        = ([0.002, 0.002, 0.002, 0.002, 0.001], 10 / 5) := by
  have h52 : ⌊(5:ℚ) / 2⌋₊ = 2 := by rw [Nat.floor_eq_iff (by positivity)]; norm_num
  have h92 : ⌊(9:ℚ) / 2⌋₊ = 4 := by rw [Nat.floor_eq_iff (by positivity)]; norm_num
  have hc52 : (⌈(5:ℚ) / 2⌉ : ℤ) = 3 := by rw [Int.ceil_eq_iff] <;> norm_num
  refine ⟨?_, ?_, ?_, ?_, ?_, ?_, ?_, ?_⟩ <;>
    norm_num [calculate_twap_orders, h52, h92, hc52, List.replicate,
      sup_eq_max, max_def]

/-- If the minimum is positive and the sequence non-empty, the spec slice
amounts sum back to the requested total. -/
theorem specTwapSlices_sum (T U : ℚ) (reduceOnly : Bool) (hU : 0 < U)
    (hne : specTwapSlices T U reduceOnly ≠ []) :
    (specTwapSlices T U reduceOnly).sum = T := by
  by_cases hTU : T < U
  · cases reduceOnly with
    | false => simp [specTwapSlices, hTU] at hne
    | true => simp [specTwapSlices, hTU]
  · have hUT : U ≤ T := le_of_not_lt hTU
    have hT0 : (0:ℚ) ≤ T / U := div_nonneg (hU.le.trans hUT) hU.le
    have hfl : (⌊T / U⌋₊ : ℚ) * U ≤ T := by
      have h1 : (⌊T / U⌋₊ : ℚ) ≤ T / U := Nat.floor_le hT0
      calc (⌊T / U⌋₊ : ℚ) * U ≤ (T / U) * U :=
            mul_le_mul_of_nonneg_right h1 hU.le
        _ = T := div_mul_cancel₀ T hU.ne'
    have hn1 : 1 ≤ ⌊T / U⌋₊ := by
      rw [Nat.le_floor_iff hT0, Nat.cast_one]
      exact (one_le_div hU).mpr hUT
    have hc : ((⌊T / U⌋₊ - 1 : ℕ) : ℚ) = (⌊T / U⌋₊ : ℚ) - 1 := by
      rw [Nat.cast_sub hn1, Nat.cast_one]
    simp only [specTwapSlices, if_neg hTU]
    cases reduceOnly with
    | true =>
      simp only [if_true]
      by_cases hr : 0 < T - (⌊T / U⌋₊ : ℚ) * U
      · rw [if_pos hr, List.sum_append, List.sum_replicate, nsmul_eq_mul,
          List.sum_cons, List.sum_nil]
        ring
      · have hr0 : T - (⌊T / U⌋₊ : ℚ) * U = 0 :=
          le_antisymm (le_of_not_lt hr) (by linarith)
        rw [if_neg hr, List.sum_replicate, nsmul_eq_mul]
        linarith
    | false =>
      simp only [Bool.false_eq_true, if_false]
      by_cases hr : 0 < T - (⌊T / U⌋₊ : ℚ) * U
      · rw [if_pos hr, List.sum_append, List.sum_replicate, nsmul_eq_mul, hc,
          List.sum_cons, List.sum_nil]
        ring
      · have hr0 : T - (⌊T / U⌋₊ : ℚ) * U = 0 :=
          le_antisymm (le_of_not_lt hr) (by linarith)
        rw [if_neg hr, List.sum_replicate, nsmul_eq_mul]
        linarith

/-- C1 counterexample: at `T=0.005, U=0.002, lot=0.001, D=10, W=5,
reduce_only=false` (a row of `test_cal_twap_orders`) the slice calculator
returns `[0.003, 0.002]` while the spec algorithm's sequence is
`[0.002, 0.003]` with the remainder merged into the last slice — so the slice
sequence is not always the one the spec algorithm defines, and it depends on
`duration` and `wait`, not on `T`, `U`, `reduce_only` alone. -/
theorem calculate_twap_orders_spec_counterexample :
    (calculate_twap_orders 0.005 0.002 0.001 10 5 false).1 = [0.003, 0.002]
    ∧ specTwapSlices 0.005 0.002 false = [0.002, 0.003]
    ∧ ([0.003, 0.002] : List ℚ) ≠ [0.002, 0.003] := by
  have h52 : ⌊(5:ℚ) / 2⌋₊ = 2 := by rw [Nat.floor_eq_iff (by positivity)]; norm_num
  have hc52 : (⌈(5:ℚ) / 2⌉ : ℤ) = 3 := by rw [Int.ceil_eq_iff] <;> norm_num
  refine ⟨?_, ?_, ?_⟩ <;>
    norm_num [calculate_twap_orders, specTwapSlices, h52, hc52, List.replicate]

/-- C1 (amended): whenever the wait cap is not binding — the spec slices can be
spaced more than `wait` apart within `duration` — `_calculate_twap_orders`
returns exactly the slice sequence of the spec algorithm, every non-empty
sequence sums to the total, and the two `T = 0.009` examples hold. -/
theorem calculate_twap_orders_follows_spec_uncapped (T U lot D W : ℚ)
    (reduceOnly : Bool) (hU : 0 < U)
    (hcap : W * ((specTwapSlices T U reduceOnly).length : ℚ) < D) :
    (calculate_twap_orders T U lot D W reduceOnly).1 = specTwapSlices T U reduceOnly
    ∧ ((calculate_twap_orders T U lot D W reduceOnly).1 ≠ [] →
        (calculate_twap_orders T U lot D W reduceOnly).1.sum = T)
    ∧ (calculate_twap_orders 0.009 0.002 0.001 10 1 false).1
        = [0.002, 0.002, 0.002, 0.003]
    ∧ (calculate_twap_orders 0.009 0.002 0.001 10 1 true).1
        = [0.002, 0.002, 0.002, 0.002, 0.001] := by
  have hfst : (calculate_twap_orders T U lot D W reduceOnly).1
      = specTwapSlices T U reduceOnly := by
    by_cases hTU : T < U
    · cases reduceOnly with
      | false => simp [calculate_twap_orders, specTwapSlices, hTU]
      | true => simp [calculate_twap_orders, specTwapSlices, hTU]
    · rw [specTwapSlices, if_neg hTU] at hcap ⊢
      rw [calculate_twap_orders, if_neg hTU]
      dsimp only at hcap ⊢
      rw [if_pos hcap]
  have h92 : ⌊(9:ℚ) / 2⌋₊ = 4 := by rw [Nat.floor_eq_iff (by positivity)]; norm_num
  refine ⟨hfst, ?_, ?_, ?_⟩
  · intro hne
    rw [hfst] at hne ⊢
    exact specTwapSlices_sum T U reduceOnly hU hne
  · norm_num [calculate_twap_orders, h92, List.replicate]
  · norm_num [calculate_twap_orders, h92, List.replicate]

/-- Witness for C1: the uncapped hypothesis holds at
`T=0.009, U=0.002, D=10, W=1` and the theorem applies there. -/
theorem calculate_twap_orders_follows_spec_uncapped_witness :
    (calculate_twap_orders 0.009 0.002 0.001 10 1 false).1
      = specTwapSlices 0.009 0.002 false :=
  (calculate_twap_orders_follows_spec_uncapped 0.009 0.002 0.001 10 1 false
    (by norm_num)
    (by
      have h92 : ⌊(9:ℚ) / 2⌋₊ = 4 := by
        rw [Nat.floor_eq_iff (by positivity)]; norm_num
      norm_num [specTwapSlices, h92])).1

/-- C2 counterexample: for the sub-minimum reduce-only request
`T=0.001 < U=0.002` (a row of `test_cal_twap_orders`) the calculator yields a
single slice with inter-slice delay `0`, not `max(duration/1, wait) = 10`. -/
theorem twap_delay_counterexample :
    (calculate_twap_orders 0.001 0.002 0.001 10 1 true).1.length = 1
    ∧ (calculate_twap_orders 0.001 0.002 0.001 10 1 true).2 = 0
    ∧ (0 : ℚ) ≠ max (10 / 1) 1 := by
  refine ⟨?_, ?_, ?_⟩ <;> norm_num [calculate_twap_orders, max_def]

/-- C2 (amended): for every request with `total_amount ≥ min_order_amount` —
both on the spec path and on the wait-capped path — the returned inter-slice
delay is `max(duration / k, wait)` where `k` is the number of slices returned;
for a sub-minimum total (`T < U`, where reduce-only yields the single slice
`[T]`) the delay is `0` instead. -/
theorem twap_delay_formula (T U lot D W : ℚ) (reduceOnly : Bool) :
    (U ≤ T →
      (calculate_twap_orders T U lot D W reduceOnly).2
        = max (D / (((calculate_twap_orders T U lot D W reduceOnly).1.length : ℕ) : ℚ)) W)
    ∧ (T < U → (calculate_twap_orders T U lot D W reduceOnly).2 = 0) := by
  constructor
  · intro hUT
    have hTU : ¬ T < U := not_lt.mpr hUT
    rw [calculate_twap_orders, if_neg hTU]
  · intro hTU
    cases reduceOnly with
    | false => simp [calculate_twap_orders, hTU]
    | true => simp [calculate_twap_orders, hTU]

/-- Witness for C2: applied at `T=0.005, U=0.002, D=10, W=1, reduce_only=true`,
where the delay is `max(10/3, 1) = 10/3`. -/
theorem twap_delay_formula_witness :
    (calculate_twap_orders 0.005 0.002 0.001 10 1 true).2
      = max (10 / (((calculate_twap_orders 0.005 0.002 0.001 10 1 true).1.length : ℕ) : ℚ)) 1 :=
  (twap_delay_formula 0.005 0.002 0.001 10 1 true).1 (by norm_num)

/- ---------------------------------------------------------------------
OrderRegistry (src/nexustrader/core/registry.py)
--------------------------------------------------------------------- -/

/-- Pointwise update of a Python-dict-like partial map: assignment when the
value is `some`, `pop` when it is `none`. -/
def dictSet (m : String → Option String) (k : String) (v : Option String) :
    String → Option String :=
  fun x => if x = k then v else m x

/-- `OrderRegistry` state: the two dictionaries `_order_id_to_uuid` and
`_uuid_to_order_id` (the `asyncio.Future` wait map does not affect lookups and
is omitted). -/
structure OrderRegistry where
  order_id_to_uuid : String → Option String
  uuid_to_order_id : String → Option String

/-- The empty registry (`OrderRegistry.__init__`). -/
def OrderRegistry.empty : OrderRegistry :=
  ⟨fun _ => none, fun _ => none⟩

/-- `OrderRegistry.register_order(order)` for an order with venue id `oid`
and client uuid `u`: writes both directions. -/
def register_order (r : OrderRegistry) (oid u : String) : OrderRegistry :=
  { order_id_to_uuid := dictSet r.order_id_to_uuid oid (some u),
    uuid_to_order_id := dictSet r.uuid_to_order_id u (some oid) }

/-- `OrderRegistry.remove_order(order)`: pops both directions. -/
def remove_order (r : OrderRegistry) (oid u : String) : OrderRegistry :=
  { order_id_to_uuid := dictSet r.order_id_to_uuid oid none,
    uuid_to_order_id := dictSet r.uuid_to_order_id u none }

/-- `OrderRegistry.get_uuid(order_id)`. -/
def get_uuid (r : OrderRegistry) (oid : String) : Option String :=
  r.order_id_to_uuid oid

/-- `OrderRegistry.get_order_id(uuid)`. -/
def get_order_id (r : OrderRegistry) (u : String) : Option String :=
  r.uuid_to_order_id u

/-- One call against the registry: `register_order` or `remove_order`, with
the `(order.id, order.uuid)` pair of the order passed in. -/
inductive RegOp where
  | register (oid u : String)
  | remove (oid u : String)
deriving DecidableEq

/-- The order id carried by a call. -/
def RegOp.oid : RegOp → String
  | .register o _ => o
  | .remove o _ => o

/-- The uuid carried by a call. -/
def RegOp.uuid : RegOp → String
  | .register _ u => u
  | .remove _ u => u

/-- Applying one call. -/
def applyRegOp (r : OrderRegistry) : RegOp → OrderRegistry
  | .register o u => register_order r o u
  | .remove o u => remove_order r o u

/-- Running a finite call sequence from the empty registry. -/
def applyRegOps (ops : List RegOp) : OrderRegistry :=
  ops.foldl applyRegOp OrderRegistry.empty

/-- Registry invariant relative to the id-to-uuid assignment `f` of the
orders appearing in the trace. -/
def RegInv (f : String → String) (r : OrderRegistry) : Prop :=
  (∀ o u, r.order_id_to_uuid o = some u → u = f o)
  ∧ (∀ u o, r.uuid_to_order_id u = some o → u = f o)
  ∧ (∀ o, r.order_id_to_uuid o = some (f o) ↔ r.uuid_to_order_id (f o) = some o)

theorem regInv_empty (f : String → String) : RegInv f OrderRegistry.empty := by
  refine ⟨fun o u h => by simp [OrderRegistry.empty] at h,
    fun u o h => by simp [OrderRegistry.empty] at h, fun o => ?_⟩
  simp [OrderRegistry.empty]

theorem regInv_register (f : String → String) (hf : Function.Injective f)
    (r : OrderRegistry) (h : RegInv f r) (o : String) :
    RegInv f (register_order r o (f o)) := by
  obtain ⟨h1, h2, h3⟩ := h
  refine ⟨?_, ?_, ?_⟩
  · intro o' u hu
    by_cases ho : o' = o
    · subst ho
      simp [register_order, dictSet] at hu
      exact hu.symm
    · simp [register_order, dictSet, ho] at hu
      exact h1 o' u hu
  · intro u o' ho
    by_cases hu : u = f o
    · subst hu
      simp [register_order, dictSet] at ho
      subst ho
      rfl
    · simp [register_order, dictSet, hu] at ho
      exact h2 u o' ho
  · intro o'
    by_cases ho : o' = o
    · subst ho
      simp [register_order, dictSet]
    · have hfo : f o' ≠ f o := fun hc => ho (hf hc)
      simp only [register_order, dictSet, get_uuid, get_order_id]
      rw [if_neg ho, if_neg hfo]
      exact h3 o'
  
theorem regInv_remove (f : String → String) (hf : Function.Injective f)
    (r : OrderRegistry) (h : RegInv f r) (o : String) :
    RegInv f (remove_order r o (f o)) := by
  obtain ⟨h1, h2, h3⟩ := h
  refine ⟨?_, ?_, ?_⟩
  · intro o' u hu
    by_cases ho : o' = o
    · subst ho
      simp [remove_order, dictSet] at hu
    · simp [remove_order, dictSet, ho] at hu
      exact h1 o' u hu
  · intro u o' ho
    by_cases hu : u = f o
    · subst hu
      simp [remove_order, dictSet] at ho
    · simp [remove_order, dictSet, hu] at ho
      exact h2 u o' ho
  · intro o'
    by_cases ho : o' = o
    · subst ho
      simp [remove_order, dictSet]
    · have hfo : f o' ≠ f o := fun hc => ho (hf hc)
      simp only [remove_order, dictSet]
      rw [if_neg ho, if_neg hfo]
      exact h3 o'

theorem regInv_foldl (f : String → String) (hf : Function.Injective f)
    (ops : List RegOp) (hops : ∀ op ∈ ops, op.uuid = f op.oid) :
    ∀ r : OrderRegistry, RegInv f r → RegInv f (ops.foldl applyRegOp r) := by
  induction ops with
  | nil => intro r h; simpa using h
  | cons op rest ih =>
    intro r h
    have hop : op.uuid = f op.oid := hops op (by simp)
    have hrest : ∀ op' ∈ rest, op'.uuid = f op'.oid :=
      fun op' h' => hops op' (by simp [h'])
    have hstep : RegInv f (applyRegOp r op) := by
      cases op with
      | register o u =>
        have : u = f o := hop
        subst this
        exact regInv_register f hf r h o
      | remove o u =>
        have : u = f o := hop
        subst this
        exact regInv_remove f hf r h o
    simpa using ih hrest (applyRegOp r op) hstep

/-- C3 counterexample: registering two orders that share a uuid leaves the
mapping one-sided: after `register("1","a"); register("2","a")`,
`get_uuid("1") = some "a"` but `get_order_id("a") = some "2" ≠ some "1"`, so
the claimed duality fails for the pair `("1", "a")`. -/
theorem registry_duality_counterexample :
    get_uuid (applyRegOps [.register "1" "a", .register "2" "a"]) "1" = some "a"
    ∧ get_order_id (applyRegOps [.register "1" "a", .register "2" "a"]) "a"
        = some "2"
    ∧ ¬ (get_order_id (applyRegOps [.register "1" "a", .register "2" "a"]) "a"
        = some "1") := by
  refine ⟨?_, ?_, ?_⟩ <;>
    simp [applyRegOps, applyRegOp, register_order, dictSet, get_uuid,
      get_order_id, OrderRegistry.empty]

/-- C3 (amended): for every finite sequence of `register_order` /
`remove_order` calls from the empty registry in which the orders' uuids are a
function of their order ids that never maps two distinct ids to one uuid (as
holds for orders generated by the runtime, where each uuid belongs to one
order), the two lookup directions stay dual:
`get_uuid(oid) = some u ↔ get_order_id(u) = some oid`. -/
theorem registry_duality_consistent_trace (f : String → String)
    (hf : Function.Injective f) (ops : List RegOp)
    (hops : ∀ op ∈ ops, op.uuid = f op.oid) (oid u : String) :
    get_uuid (applyRegOps ops) oid = some u
      ↔ get_order_id (applyRegOps ops) u = some oid := by
  have hinv : RegInv f (applyRegOps ops) :=
    regInv_foldl f hf ops hops OrderRegistry.empty (regInv_empty f)
  obtain ⟨h1, h2, h3⟩ := hinv
  constructor
  · intro h
    have hu : u = f oid := h1 oid u h
    subst hu
    exact (h3 oid).mp h
  · intro h
    have hu : u = f oid := h2 u oid h
    subst hu
    exact (h3 oid).mpr h

/-- Witness for C3: a one-register trace with uuid assignment `id`, looked up
at `("1", "1")`. -/
theorem registry_duality_consistent_trace_witness :
    get_uuid (applyRegOps [.register "1" "1"]) "1" = some "1"
      ↔ get_order_id (applyRegOps [.register "1" "1"]) "1" = some "1" :=
  registry_duality_consistent_trace (fun s => s) (fun _ _ h => h)
    [.register "1" "1"] (by decide) "1" "1"

/- ---------------------------------------------------------------------
KucoinWSClient subscriptions (src/nexustrader/exchange/kucoin/websockets.py)
--------------------------------------------------------------------- -/

/-- A subscription descriptor as passed to `KucoinWSClient._subscribe`: the
dict `{"symbol": ..., "topic": ...}` (a missing symbol reads as `""` via
`t.get("symbol", "")`). -/
structure TopicDesc where
  topic : String
  symbol : String
deriving DecidableEq

/-- The stored key `f"{t['topic']}|{t.get('symbol','')}"`. -/
def descKey (t : TopicDesc) : String := t.topic ++ "|" ++ t.symbol

/-- A subscribe frame: the venue payload's `topic` field is serialised as
`topic + ":" + ",".join(symbols)`; we keep the two parts. -/
structure SubscribePayload where
  topic : String
  symbols : List String
deriving DecidableEq

/-- The dedup loop of `_subscribe`: walks the descriptors, appends unseen keys
to `self._subscriptions` and collects them as `new_topics`. -/
def scan_topics (subs : List String) : List TopicDesc → List String × List TopicDesc
  | [] => (subs, [])
  | t :: ts =>
    if descKey t ∈ subs then scan_topics subs ts
    else
      let res := scan_topics (subs ++ [descKey t]) ts
      (res.1, t :: res.2)

/-- `KucoinWSClient._subscribe(topics)`: returns the updated subscription list
and the transmitted frame, `none` when the early returns fire (`topics` empty
or every key already stored). -/
def ws_subscribe (subs : List String) (topics : List TopicDesc) :
    List String × Option SubscribePayload :=
  if topics.isEmpty then (subs, none)
  else
    match scan_topics subs topics with
    | (subs2, []) => (subs2, none)
    | (subs2, t :: ts) =>
      (subs2, some ⟨t.topic, ((t :: ts).map TopicDesc.symbol).dedup⟩)

theorem scan_topics_sub_mem (ts : List TopicDesc) :
    ∀ subs k, k ∈ subs → k ∈ (scan_topics subs ts).1 := by
  induction ts with
  | nil => intro subs k h; simpa [scan_topics] using h
  | cons t rest ih =>
    intro subs k h
    by_cases ht : descKey t ∈ subs
    · simpa [scan_topics, ht] using ih subs k h
    · simp only [scan_topics, if_neg ht]
      exact ih (subs ++ [descKey t]) k (by simp [h])

theorem scan_topics_desc_mem (ts : List TopicDesc) :
    ∀ subs t, t ∈ ts → descKey t ∈ (scan_topics subs ts).1 := by
  induction ts with
  | nil => intro subs t h; simp at h
  | cons t0 rest ih =>
    intro subs t h
    rcases List.mem_cons.mp h with h0 | hrest
    · subst h0
      by_cases ht : descKey t ∈ subs
      · simpa [scan_topics, ht] using scan_topics_sub_mem rest subs _ ht
      · simp only [scan_topics, if_neg ht]
        exact scan_topics_sub_mem rest (subs ++ [descKey t]) _ (by simp)
    · by_cases ht : descKey t0 ∈ subs
      · simpa [scan_topics, ht] using ih subs t hrest
      · simp only [scan_topics, if_neg ht]
        exact ih (subs ++ [descKey t0]) t hrest

theorem scan_topics_nodup (ts : List TopicDesc) :
    ∀ subs, subs.Nodup → (scan_topics subs ts).1.Nodup := by
  induction ts with
  | nil => intro subs h; simpa [scan_topics] using h
  | cons t rest ih =>
    intro subs h
    by_cases ht : descKey t ∈ subs
    · simpa [scan_topics, ht] using ih subs h
    · simp only [scan_topics, if_neg ht]
      exact ih (subs ++ [descKey t])
        (by simpa [List.nodup_append] using ⟨h, ht⟩)

theorem scan_topics_saturated (ts : List TopicDesc) :
    ∀ subs, (∀ t ∈ ts, descKey t ∈ subs) → scan_topics subs ts = (subs, []) := by
  induction ts with
  | nil => intro subs _; rfl
  | cons t rest ih =>
    intro subs h
    have ht : descKey t ∈ subs := h t (by simp)
    simp only [scan_topics, if_pos ht]
    exact ih subs (fun t' h' => h t' (by simp [h']))

/-- C4: subscribing twice with the same descriptor list is idempotent: from
any duplicate-free stored list, the second `_subscribe(S)` leaves the list
unchanged and duplicate-free with exactly one copy of each key of `S`, and
transmits no frame. -/
theorem subscribe_idempotent (subs : List String) (S : List TopicDesc)
    (hnd : subs.Nodup) :
    (ws_subscribe (ws_subscribe subs S).1 S).1 = (ws_subscribe subs S).1
    ∧ (ws_subscribe (ws_subscribe subs S).1 S).2 = none
    ∧ (ws_subscribe (ws_subscribe subs S).1 S).1.Nodup
    ∧ ∀ t ∈ S, ((ws_subscribe (ws_subscribe subs S).1 S).1).count (descKey t) = 1 := by
  rcases hS : S with _ | ⟨t0, S'⟩
  · subst hS
    simp [ws_subscribe, hnd]
  · have hne : ¬ S.isEmpty := by subst hS; simp
    have hsubs1 : (ws_subscribe subs S).1 = (scan_topics subs S).1 := by
      rw [ws_subscribe, if_neg hne]
      rcases hscan : scan_topics subs S with ⟨s2, ns⟩
      cases ns <;> rfl
    have hmem : ∀ t ∈ S, descKey t ∈ (ws_subscribe subs S).1 := by
      intro t ht
      rw [hsubs1]
      exact scan_topics_desc_mem S subs t ht
    have hnd1 : (ws_subscribe subs S).1.Nodup := by
      rw [hsubs1]; exact scan_topics_nodup S subs hnd
    have hsat : scan_topics (ws_subscribe subs S).1 S
        = ((ws_subscribe subs S).1, []) :=
      scan_topics_saturated S _ hmem
    have hsecond : ws_subscribe (ws_subscribe subs S).1 S
        = ((ws_subscribe subs S).1, none) := by
      rw [ws_subscribe, if_neg hne, hsat]
    subst hS
    refine ⟨by rw [hsecond], by rw [hsecond], ?_, ?_⟩
    · rw [hsecond]; exact hnd1
    · intro t ht
      rw [hsecond]
      exact List.count_eq_one_of_mem hnd1 (hmem t ht)

/-- Witness for C4: a fresh client subscribing twice to the spot trade topic
for two symbols. -/
theorem subscribe_idempotent_witness :
    (ws_subscribe
        (ws_subscribe []
          [⟨"/market/match", "BTC-USDT"⟩, ⟨"/market/match", "ETH-USDT"⟩]).1
        [⟨"/market/match", "BTC-USDT"⟩, ⟨"/market/match", "ETH-USDT"⟩]).2
      = none :=
  (subscribe_idempotent []
    [⟨"/market/match", "BTC-USDT"⟩, ⟨"/market/match", "ETH-USDT"⟩]
    List.nodup_nil).2.1

/-- Split a character list at the first `'|'` (Python `key.split("|", 1)`);
`none` models the `ValueError` of a key without a separator, which
`_resubscribe` skips. -/
def splitBarChars : List Char → Option (List Char × List Char)
  | [] => none
  | c :: rest =>
    if c = '|' then some ([], rest)
    else
      match splitBarChars rest with
      | none => none
      | some (t, s) => some (c :: t, s)

/-- `topic, symbol = key.split("|", 1)` on a stored key. -/
def split_key (k : String) : Option (String × String) :=
  match splitBarChars k.data with
  | none => none
  | some (t, s) => some (⟨t⟩, ⟨s⟩)

/-- `grouped.setdefault(topic, set()).add(symbol)` on an insertion-ordered
dict of symbol sets (a set is kept as its insertion-ordered, duplicate-free
list). -/
def groupAdd (g : List (String × List String)) (t s : String) :
    List (String × List String) :=
  match g with
  | [] => [(t, [s])]
  | (t0, ss) :: rest =>
    if t0 = t then (t0, if s ∈ ss then ss else ss ++ [s]) :: rest
    else (t0, ss) :: groupAdd rest t s

/-- One iteration of the grouping loop of `_resubscribe`: split the stored
key, skip it on `ValueError`, otherwise add the symbol to its topic group. -/
def groupStep (g : List (String × List String)) (key : String) :
    List (String × List String) :=
  match split_key key with
  | none => g
  | some (t, s) => groupAdd g t s

/-- The grouping loop of `_resubscribe` over the stored keys. -/
def group_subs (subs : List String) : List (String × List String) :=
  subs.foldl groupStep []

/-- `KucoinWSClient._resubscribe`: one subscribe payload per stored topic,
carrying all its symbols (`if not symbols: continue` keeps only non-empty
groups). -/
def resubscribe_payloads (subs : List String) : List SubscribePayload :=
  (group_subs subs).filterMap
    (fun p => if p.2.isEmpty then none else some ⟨p.1, p.2⟩)

/-- Modelled from the spec: the base `WSClient` reconnect sequencing (the base
ws_client module is not under the source tree).  After a reconnect the client
replays `_resubscribe()` before any user-issued subscribe queued during the
outage, so the emitted frame sequence is the replay payloads followed by the
queued ones (§4.F: "after a reconnect completes, at least one `_resubscribe`
payload is sent before any user-issued `subscribe` from the queue that arrived
during BACKOFF"). -/
def reconnect_emissions (subs : List String) (queued : List SubscribePayload) :
    List SubscribePayload :=
  resubscribe_payloads subs ++ queued

/-- Group coverage: topic `t` maps to a set containing `s`. -/
def groupCovers (g : List (String × List String)) (t s : String) : Prop :=
  ∃ ss, (t, ss) ∈ g ∧ s ∈ ss

theorem groupAdd_covers_self (g : List (String × List String)) (t s : String) :
    groupCovers (groupAdd g t s) t s := by
  induction g with
  | nil => exact ⟨[s], by simp [groupAdd]⟩
  | cons p rest ih =>
    obtain ⟨t0, ss⟩ := p
    by_cases ht : t0 = t
    · subst ht
      by_cases hs : s ∈ ss
      · exact ⟨ss, by simp [groupAdd, hs], hs⟩
      · exact ⟨ss ++ [s], by simp [groupAdd, hs], by simp⟩
    · obtain ⟨ss2, hmem, hs2⟩ := ih
      exact ⟨ss2, by simp [groupAdd, ht, hmem], hs2⟩

theorem groupAdd_covers_mono (t s t' s' : String) :
    ∀ g, groupCovers g t' s' → groupCovers (groupAdd g t s) t' s' := by
  intro g
  induction g with
  | nil =>
    intro h
    obtain ⟨ss, hmem, _⟩ := h
    simp at hmem
  | cons p rest ih =>
    intro h
    obtain ⟨t0, ss⟩ := p
    obtain ⟨ss', hmem, hs'⟩ := h
    rcases List.mem_cons.mp hmem with hhead | htail
    · rw [Prod.mk.injEq] at hhead
      obtain ⟨h1, h2⟩ := hhead
      by_cases ht : t0 = t
      · by_cases hs : s ∈ ss
        · refine ⟨ss', ?_, hs'⟩
          simp only [groupAdd, if_pos ht, if_pos hs]
          exact List.mem_cons.mpr (Or.inl (by rw [h1, h2]))
        · refine ⟨ss ++ [s], ?_, ?_⟩
          · simp only [groupAdd, if_pos ht, if_neg hs]
            exact List.mem_cons.mpr (Or.inl (by rw [h1]))
          · exact List.mem_append_left _ (h2 ▸ hs')
      · refine ⟨ss', ?_, hs'⟩
        simp only [groupAdd, if_neg ht]
        exact List.mem_cons.mpr (Or.inl (by rw [h1, h2]))
    · by_cases ht : t0 = t
      · refine ⟨ss', ?_, hs'⟩
        simp only [groupAdd, if_pos ht]
        exact List.mem_cons_of_mem _ htail
      · obtain ⟨ss2, hmem2, hs2⟩ := ih ⟨ss', htail, hs'⟩
        refine ⟨ss2, ?_, hs2⟩
        simp only [groupAdd, if_neg ht]
        exact List.mem_cons_of_mem _ hmem2

theorem groupStep_mono (g : List (String × List String)) (key t s : String)
    (h : groupCovers g t s) : groupCovers (groupStep g key) t s := by
  rcases hk : split_key key with _ | ⟨t', s'⟩
  · simpa [groupStep, hk] using h
  · simpa [groupStep, hk] using groupAdd_covers_mono t' s' t s g h

theorem groupStep_foldl_covers (t s : String) (subs : List String) :
    ∀ g, (groupCovers g t s ∨ ∃ key ∈ subs, split_key key = some (t, s)) →
      groupCovers (subs.foldl groupStep g) t s := by
  induction subs with
  | nil =>
    intro g h
    rcases h with h | ⟨k, hk, _⟩
    · simpa using h
    · simp at hk
  | cons k0 rest ih =>
    intro g h
    simp only [List.foldl_cons]
    rcases h with h | ⟨k, hk, hs⟩
    · exact ih _ (Or.inl (groupStep_mono g k0 t s h))
    · rcases List.mem_cons.mp hk with h0 | hrest
      · subst h0
        refine ih _ (Or.inl ?_)
        simp only [groupStep, hs]
        exact groupAdd_covers_self g t s
      · exact ih _ (Or.inr ⟨k, hrest, hs⟩)

theorem group_subs_covers (subs : List String) (key t s : String)
    (hk : key ∈ subs) (hsplit : split_key key = some (t, s)) :
    groupCovers (group_subs subs) t s :=
  groupStep_foldl_covers t s subs [] (Or.inr ⟨key, hk, hsplit⟩)

/-- C5: every stored well-formed key `topic|symbol` is covered by some
`_resubscribe` payload, and the reconnect emission sequence is exactly the
replay payloads followed by the queued user subscribes — so a payload for
every stored element precedes any user-issued subscribe from the outage. -/
theorem resubscribe_covers_before_user (subs : List String)
    (queued : List SubscribePayload) (key t s : String)
    (hk : key ∈ subs) (hsplit : split_key key = some (t, s)) :
    (∃ P ∈ resubscribe_payloads subs, P.topic = t ∧ s ∈ P.symbols)
    ∧ reconnect_emissions subs queued = resubscribe_payloads subs ++ queued := by
  refine ⟨?_, rfl⟩
  obtain ⟨ss, hmem, hs⟩ := group_subs_covers subs key t s hk hsplit
  have hne : ¬ ss.isEmpty := by
    cases ss with
    | nil => simp at hs
    | cons a l => simp
  refine ⟨⟨t, ss⟩, ?_, rfl, hs⟩
  rw [resubscribe_payloads]
  exact List.mem_filterMap.mpr ⟨(t, ss), hmem, by rw [if_neg hne]⟩

/-- Witness for C5: a single stored spot-trade key is replayed before an empty
outage queue. -/
theorem resubscribe_covers_before_user_witness :
    (∃ P ∈ resubscribe_payloads ["/market/match|BTC-USDT"],
        P.topic = "/market/match" ∧ "BTC-USDT" ∈ P.symbols)
    ∧ reconnect_emissions ["/market/match|BTC-USDT"] []
        = resubscribe_payloads ["/market/match|BTC-USDT"] ++ [] :=
  resubscribe_covers_before_user ["/market/match|BTC-USDT"] []
    "/market/match|BTC-USDT" "/market/match" "BTC-USDT" (by simp) (by rfl)

/- ---------------------------------------------------------------------
KuCoin REST error handling and retry wiring
(src/nexustrader/exchange/kucoin/error.py, rest_api.py)
--------------------------------------------------------------------- -/

/-- A Python scalar as it appears in a decoded JSON error body: the `code`
field is either a string (KuCoin error codes) or an integer (the HTTP status
fallback). -/
inductive PyScalar where
  | str (s : String)
  | int (n : Int)
deriving DecidableEq

/-- Python `str(code)`. -/
def PyScalar.text : PyScalar → String
  | .str s => s
  | .int n => toString n

/-- Python `==` between scalars: values of different types never compare
equal. -/
def pyEq : PyScalar → PyScalar → Bool
  | .str a, .str b => a == b
  | .int a, .int b => a == b
  | _, _ => false

/-- A raised `KucoinError`: `__init__` stores `self.code = str(code)`. -/
structure KucoinErrModel where
  code : PyScalar
  message : String
deriving DecidableEq

/-- `KucoinError(code=..., message=...)` (error.py line 13-17): the code is
coerced to a string. -/
def mk_kucoin_error (code : PyScalar) (message : String) : KucoinErrModel :=
  ⟨.str code.text, message⟩

/-- `KucoinApiClient._decode_response` on an HTTP response: status `>= 400`
raises `KucoinError` with the JSON body's `code` (falling back to the HTTP
status) and `msg` (falling back to `"HTTP Error <status>"`). -/
def decode_response (status_code : Int) (jsonCode : Option PyScalar)
    (jsonMsg : Option String) : Except KucoinErrModel Unit :=
  if 400 ≤ status_code then
    .error (mk_kucoin_error (jsonCode.getD (.int status_code))
      (jsonMsg.getD ("HTTP Error " ++ toString status_code)))
  else
    .ok ()

/-- Python `str.startswith`. -/
def str_begins (s p : String) : Bool := p.data.isPrefixOf s.data

/-- `retry_check` from error.py: an error is transient when its code string
starts with `429`, `500` or `503`. -/
def retry_check (e : KucoinErrModel) : Bool :=
  let code_str := e.code.text
  if code_str = "" then false
  else str_begins code_str "429" || str_begins code_str "500"
    || str_begins code_str "503"

/-- The retry predicate actually wired in `KucoinApiClient.__init__`
(rest_api.py line 74): `lambda e: e.code in [-1000, -1001]` — a membership
test of the (string) code against two integers. -/
def configured_retry_check (e : KucoinErrModel) : Bool :=
  pyEq e.code (.int (-1000)) || pyEq e.code (.int (-1001))

/-- Modelled from the spec: `RetryManager.run` (§4.E; the retry module is not
under the source tree).  Runs the call; a failure matching the predicate is
retried while retries remain, any other failure re-raises immediately.
Returns the outcome and how many times the call ran. -/
def retry_loop {α : Type} (check : KucoinErrModel → Bool)
    (fn : Nat → Except KucoinErrModel α) :
    Nat → Nat → Except KucoinErrModel α × Nat
  | attempt, 0 =>
    (fn attempt, attempt + 1)
  | attempt, retriesLeft + 1 =>
    match fn attempt with
    | .ok a => (.ok a, attempt + 1)
    | .error e =>
      if check e then retry_loop check fn (attempt + 1) retriesLeft
      else (.error e, attempt + 1)

/-- `RetryManager.run` with `max_retries` extra attempts allowed. -/
def retry_run {α : Type} (maxRetries : Nat) (check : KucoinErrModel → Bool)
    (fn : Nat → Except KucoinErrModel α) : Except KucoinErrModel α × Nat :=
  retry_loop check fn 0 maxRetries

deriving instance DecidableEq for Except

/-- C6: on an HTTP 429 response `_decode_response` raises a `KucoinError`
whose stringified code the repo's own `retry_check` (error.py) classifies
retriable — but the predicate actually configured in `KucoinApiClient.__init__`
compares the string code against the integers `-1000`/`-1001`, matches no
error at all, and so the 429 (and any 5xx) error is re-raised after a single
attempt instead of being retried up to `max_retries`. -/
theorem kucoin_429_not_retried :
    (∀ c m, configured_retry_check (mk_kucoin_error c m) = false)
    ∧ retry_check (mk_kucoin_error (.int 429) "Too Many Requests") = true
    ∧ retry_check (mk_kucoin_error (.int 503) "Service Unavailable") = true
    ∧ retry_check (mk_kucoin_error (.str "200004") "insufficient balance") = false
    ∧ decode_response 429 none none
        = .error (mk_kucoin_error (.int 429) "HTTP Error 429")
    ∧ retry_run 3 configured_retry_check
        (fun _ => (.error (mk_kucoin_error (.int 429) "Too Many Requests")
          : Except KucoinErrModel Unit))
        = (.error (mk_kucoin_error (.int 429) "Too Many Requests"), 1)
    ∧ retry_run 3 retry_check
        (fun _ => (.error (mk_kucoin_error (.int 429) "Too Many Requests")
          : Except KucoinErrModel Unit))
        = (.error (mk_kucoin_error (.int 429) "Too Many Requests"), 4) := by
  refine ⟨fun c m => rfl, ?_, ?_, ?_, ?_, ?_, ?_⟩ <;> decide

/- ---------------------------------------------------------------------
Engine shutdown (src/nexustrader/engine.py, Engine._dispose)
--------------------------------------------------------------------- -/

/-- One awaited step of `Engine._dispose`, in program order. -/
inductive DisposeEvent where
  | scheduler_shutdown
  | stop_auto_flush
  | disconnect_public (idx : ℕ)
  | disconnect_private (idx : ℕ)
  | sleep_wait
  | cancel_tasks
  | cache_close
deriving DecidableEq

/-- `Engine._dispose`: optional scheduler shutdown, optional auto-flush stop,
then `for connector in self._public_connectors.values(): await
connector.disconnect()`, then the same loop over `self._private_connectors`,
then the 0.2s sleep, `task_manager.cancel()` and `cache.close()`.  Connectors
are indexed by their (insertion-ordered) position in the respective dict. -/
def dispose_events (schedulerStarted autoFlushAlive : Bool)
    (numPublic numPrivate : ℕ) : List DisposeEvent :=
  (if schedulerStarted then [DisposeEvent.scheduler_shutdown] else [])
  ++ (if autoFlushAlive then [DisposeEvent.stop_auto_flush] else [])
  ++ (List.range numPublic).map DisposeEvent.disconnect_public
  ++ (List.range numPrivate).map DisposeEvent.disconnect_private
  ++ [DisposeEvent.sleep_wait, DisposeEvent.cancel_tasks,
      DisposeEvent.cache_close]

/-- C7 counterexample: with one public and one private connector, `_dispose`
disconnects the public connector at position 0 and the private one at
position 1 — the private disconnect does not precede the public one. -/
theorem dispose_order_counterexample :
    dispose_events false false 1 1
      = [DisposeEvent.disconnect_public 0, DisposeEvent.disconnect_private 0,
         DisposeEvent.sleep_wait, DisposeEvent.cancel_tasks,
         DisposeEvent.cache_close]
    ∧ (dispose_events false false 1 1).indexOf (DisposeEvent.disconnect_public 0) = 0
    ∧ (dispose_events false false 1 1).indexOf (DisposeEvent.disconnect_private 0) = 1
    ∧ ¬ ((dispose_events false false 1 1).indexOf (DisposeEvent.disconnect_private 0)
          < (dispose_events false false 1 1).indexOf (DisposeEvent.disconnect_public 0)) := by
  decide

theorem get_left_of_not_right {α : Type} (X Y : List α) (n : ℕ) (a : α)
    (h : (X ++ Y).get? n = some a) (ha : a ∉ Y) : n < X.length := by
  by_contra hn
  have hn' : X.length ≤ n := le_of_not_lt hn
  rw [List.get?_append_right hn'] at h
  exact ha (List.get?_mem h)

theorem get_right_of_not_left {α : Type} (X Y : List α) (n : ℕ) (a : α)
    (h : (X ++ Y).get? n = some a) (ha : a ∉ X) : X.length ≤ n := by
  by_contra hn
  have hn' : n < X.length := lt_of_not_le hn
  rw [List.get?_append hn'] at h
  exact ha (List.get?_mem h)

/-- C7 (amended): in `Engine._dispose` every PUBLIC connector's disconnect is
performed before any PRIVATE connector's disconnect begins — the reverse of
the claimed (and spec §4.N step 7) order. -/
theorem dispose_public_before_private (sched af : Bool) (nPub nPriv : ℕ)
    (i j k l : ℕ)
    (hk : (dispose_events sched af nPub nPriv).get? k
        = some (DisposeEvent.disconnect_public i))
    (hl : (dispose_events sched af nPub nPriv).get? l
        = some (DisposeEvent.disconnect_private j)) :
    k < l := by
  have hsplit : dispose_events sched af nPub nPriv
      = (((if sched then [DisposeEvent.scheduler_shutdown] else [])
          ++ (if af then [DisposeEvent.stop_auto_flush] else []))
          ++ (List.range nPub).map DisposeEvent.disconnect_public)
        ++ ((List.range nPriv).map DisposeEvent.disconnect_private
          ++ [DisposeEvent.sleep_wait, DisposeEvent.cancel_tasks,
              DisposeEvent.cache_close]) := by
    simp [dispose_events, List.append_assoc]
  rw [hsplit] at hk hl
  have hpub : DisposeEvent.disconnect_public i
      ∉ (List.range nPriv).map DisposeEvent.disconnect_private
        ++ [DisposeEvent.sleep_wait, DisposeEvent.cancel_tasks,
            DisposeEvent.cache_close] := by
    simp
  have hpriv : DisposeEvent.disconnect_private j
      ∉ ((if sched then [DisposeEvent.scheduler_shutdown] else [])
          ++ (if af then [DisposeEvent.stop_auto_flush] else []))
          ++ (List.range nPub).map DisposeEvent.disconnect_public := by
    cases sched <;> cases af <;> simp
  have hkX := get_left_of_not_right _ _ k _ hk hpub
  have hlX := get_right_of_not_left _ _ l _ hl hpriv
  exact lt_of_lt_of_le hkX hlX

/-- Witness for C7: the public disconnect at index 0 precedes the private one
at index 1 in the two-connector engine. -/
theorem dispose_public_before_private_witness : (0 : ℕ) < 1 :=
  dispose_public_before_private false false 1 1 0 0 0 1 (by decide) (by decide)

/- ---------------------------------------------------------------------
HyperLiquid order placement
(src/nexustrader/exchange/hyperliquid/connector.py, constants.py)
--------------------------------------------------------------------- -/

/-- A `resting`/`filled` entry of a HyperLiquid order status; it carries the
venue order id `oid`. -/
structure HLRestingEntry where
  oid : Int
deriving DecidableEq

/-- Modelled from the spec: the decoded per-order status of a HyperLiquid
place-orders response as the connector consumes it (`status.error`,
`status.resting`, `status.filled`); the decoding module the connector imports
(`restapi`) is not under the source tree.  An absent field is `none`; a
present entry object is truthy. -/
structure HLOrderStatus where
  error : Option String
  resting : Option HLRestingEntry
  filled : Option HLRestingEntry
deriving DecidableEq

/-- Python `a or b` over optional objects: the left operand wins when
present. -/
def pyOrOpt {α : Type} : Option α → Option α → Option α
  | some a, _ => some a
  | none, b => b

/-- Modelled from the spec: the order types of §3 (`nexustrader/constants.py`
is not under the source tree); `is_market` holds exactly for the market
type. -/
inductive OrderType where
  | limit
  | market
  | post_only
deriving DecidableEq

def OrderType.is_market : OrderType → Bool
  | .market => true
  | _ => false

def OrderType.is_post_only : OrderType → Bool
  | .post_only => true
  | _ => false

/-- Modelled from the spec: time-in-force values of §3. -/
inductive TimeInForce where
  | GTC
  | IOC
  | FOK
deriving DecidableEq

/-- `HyperLiquidTimeInForce` (constants.py line 42-45). -/
inductive HyperLiquidTimeInForce where
  | Gtc
  | Ioc
  | Alo
deriving DecidableEq

/-- `HyperLiquidEnumParser.to_hyperliquid_time_in_force`: the
`_time_in_force_to_hyperliquid_map` holds only GTC and IOC, so FOK raises
`KeyError`. -/
def to_hyperliquid_time_in_force :
    TimeInForce → Except String HyperLiquidTimeInForce
  | .GTC => .ok .Gtc
  | .IOC => .ok .Ioc
  | .FOK => .error "KeyError: TimeInForce.FOK"

/-- The `"t"` field of a HyperLiquid order request: the connector only ever
builds the `{"limit": {"tif": ...}}` form. -/
inductive HLOrderTypeField where
  | limit (tif : HyperLiquidTimeInForce)
deriving DecidableEq

/-- The `HyperLiquidOrderRequest` params dict built by the connector
(`a`/`b`/`p`/`s`/`r`/`t`; the price and size strings are kept as their exact
values). -/
structure HyperLiquidOrderRequest where
  a : Int
  b : Bool
  p : ℚ
  s : ℚ
  r : Bool
  t : HLOrderTypeField
deriving DecidableEq

/-- The order statuses `create_order` can return. -/
inductive OrderStatusOut where
  | PENDING
  | FAILED
deriving DecidableEq

/-- The slice of the returned `Order` the claims speak about: the exchange
order id (absent on failure) and the status. -/
structure HLOrderOut where
  id : Option String
  status : OrderStatusOut
deriving DecidableEq

/-- Outcome of a create call: what was transmitted to the venue (if anything)
and the result (`Except.error` models a raised exception). -/
structure HLCreateOutcome where
  sent : Option HyperLiquidOrderRequest
  result : Except String HLOrderOut
deriving DecidableEq

/-- `HyperLiquidPrivateConnector.create_order` (connector.py 334-431): market
lookup, market-order rejection, tif conversion with the post-only override,
building the limit-style params, transmitting, then reading the response
status: an `error` entry yields a FAILED order without id; otherwise
`status.resting or status.filled` provides the venue id; a response with
neither raises inside the `try` (`None.oid`) and the `except` branch yields a
FAILED order.  `marketFound`/`baseId` stand for the `self._market` lookup and
`venueStatus` for `res.response.data.statuses[0]`. -/
def create_order (marketFound : Bool) (baseId : Int) (isBuy : Bool)
    (otype : OrderType) (amount price : ℚ) (tif : TimeInForce)
    (reduceOnly : Bool) (venueStatus : HLOrderStatus) : HLCreateOutcome :=
  if ¬ marketFound then
    ⟨none, .error "Market not found"⟩
  else if otype.is_market then
    ⟨none,
      .error "Market orders are not supported in HyperLiquid. Use limit order instead."⟩
  else
    match to_hyperliquid_time_in_force tif with
    | .error e => ⟨none, .error e⟩
    | .ok tif0 =>
      let tif1 := if otype.is_post_only then HyperLiquidTimeInForce.Alo else tif0
      let params : HyperLiquidOrderRequest :=
        ⟨baseId, isBuy, price, amount, reduceOnly, .limit tif1⟩
      if venueStatus.error.isSome then
        ⟨some params, .ok ⟨none, .FAILED⟩⟩
      else
        match pyOrOpt venueStatus.resting venueStatus.filled with
        | some entry => ⟨some params, .ok ⟨some (toString entry.oid), .PENDING⟩⟩
        | none => ⟨some params, .ok ⟨none, .FAILED⟩⟩

/-- One entry of the `create_batch_orders` input. -/
structure BatchOrderSubmit where
  marketFound : Bool
  baseId : Int
  isBuy : Bool
  otype : OrderType
  amount : ℚ
  price : ℚ
  tif : TimeInForce
  reduceOnly : Bool
deriving DecidableEq

/-- The request-building loop of `create_batch_orders` (connector.py 439-466):
the whole batch is validated and encoded before `place_orders` is called, and
an unknown market or a market-type order raises out of the loop, so nothing
is transmitted. -/
def build_batch_requests :
    List BatchOrderSubmit → Except String (List HyperLiquidOrderRequest)
  | [] => .ok []
  | o :: rest =>
    if ¬ o.marketFound then .error "Market not found"
    else if o.otype.is_market then
      .error "Market orders are not supported in HyperLiquid. Use limit order instead."
    else
      match to_hyperliquid_time_in_force o.tif with
      | .error e => .error e
      | .ok tif0 =>
        let tif1 :=
          if o.otype.is_post_only then HyperLiquidTimeInForce.Alo else tif0
        let params : HyperLiquidOrderRequest :=
          ⟨o.baseId, o.isBuy, o.price, o.amount, o.reduceOnly, .limit tif1⟩
        match build_batch_requests rest with
        | .error e => .error e
        | .ok ps => .ok (params :: ps)

/-- C8: when the venue response status carries both a `resting` and a `filled`
entry (and no error), the returned order takes its exchange order id from the
`resting` entry — `status.resting or status.filled` prefers the left,
present operand. -/
theorem create_order_prefers_resting (marketFound : Bool) (baseId : Int)
    (isBuy : Bool) (otype : OrderType) (amount price : ℚ) (tif : TimeInForce)
    (reduceOnly : Bool) (restingEntry filledEntry : HLRestingEntry)
    (hm : marketFound = true) (hmo : otype.is_market = false)
    (htif : tif ≠ TimeInForce.FOK) :
    (create_order marketFound baseId isBuy otype amount price tif reduceOnly
        ⟨none, some restingEntry, some filledEntry⟩).result
      = .ok ⟨some (toString restingEntry.oid), .PENDING⟩ := by
  subst hm
  cases tif with
  | FOK => exact absurd rfl htif
  | GTC =>
    simp [create_order, hmo, to_hyperliquid_time_in_force, pyOrOpt]
  | IOC =>
    simp [create_order, hmo, to_hyperliquid_time_in_force, pyOrOpt]

/-- Witness for C8: a limit GTC buy answered with both entries takes the
resting oid 91490942, not the filled oid 7. -/
theorem create_order_prefers_resting_witness :
    (create_order true 4 true OrderType.limit 1 1000 TimeInForce.GTC false
        ⟨none, some ⟨91490942⟩, some ⟨7⟩⟩).result
      = .ok ⟨some (toString (91490942 : Int)), .PENDING⟩ :=
  create_order_prefers_resting true 4 true OrderType.limit 1 1000
    TimeInForce.GTC false ⟨91490942⟩ ⟨7⟩ rfl rfl (by decide)

/-- C10: a market-type order is rejected before anything reaches the venue:
`create_order` raises with nothing sent, any batch containing one makes
`create_batch_orders` raise during request building (before `place_orders`),
and every request either path does transmit is limit-style. -/
theorem market_orders_rejected_before_send (marketFound : Bool) (baseId : Int)
    (isBuy : Bool) (amount price : ℚ) (tif : TimeInForce) (reduceOnly : Bool)
    (venueStatus : HLOrderStatus) (otype : OrderType)
    (batch : List BatchOrderSubmit) :
    (otype.is_market = true →
      (create_order marketFound baseId isBuy otype amount price tif reduceOnly
          venueStatus).sent = none
      ∧ ∃ msg, (create_order marketFound baseId isBuy otype amount price tif
          reduceOnly venueStatus).result = .error msg)
    ∧ ((∃ o ∈ batch, o.otype.is_market = true) →
        ∃ msg, build_batch_requests batch = .error msg)
    ∧ (∀ req, (create_order marketFound baseId isBuy otype amount price tif
          reduceOnly venueStatus).sent = some req →
        ∃ tif1, req.t = HLOrderTypeField.limit tif1)
    ∧ (∀ reqs, build_batch_requests batch = .ok reqs →
        ∀ req ∈ reqs, ∃ tif1, req.t = HLOrderTypeField.limit tif1) := by
  refine ⟨?_, ?_, ?_, ?_⟩
  · intro hmo
    by_cases hm : marketFound
    · refine ⟨by simp [create_order, hm, hmo],
        "Market orders are not supported in HyperLiquid. Use limit order instead.",
        ?_⟩
      simp [create_order, hm, hmo]
    · exact ⟨by simp [create_order, hm], "Market not found",
        by simp [create_order, hm]⟩
  · intro h
    induction batch with
    | nil =>
      obtain ⟨o, ho, _⟩ := h
      simp at ho
    | cons o rest ih =>
      by_cases hm : o.marketFound
      · by_cases hmo : o.otype.is_market = true
        · exact
            ⟨"Market orders are not supported in HyperLiquid. Use limit order instead.",
              by simp [build_batch_requests, hm, hmo]⟩
        · obtain ⟨o', ho', hmo'⟩ := h
          rcases List.mem_cons.mp ho' with h0 | hrest
          · subst h0
            exact absurd hmo' hmo
          · rcases htif : to_hyperliquid_time_in_force o.tif with e | tif0
            · refine ⟨e, ?_⟩
              simp only [build_batch_requests]
              rw [if_neg (by simp [hm]), if_neg hmo]
              simp only [htif]
            · obtain ⟨msg, hmsg⟩ := ih ⟨o', hrest, hmo'⟩
              refine ⟨msg, ?_⟩
              simp only [build_batch_requests]
              rw [if_neg (by simp [hm]), if_neg hmo]
              simp only [htif, hmsg]
      · exact ⟨"Market not found", by simp [build_batch_requests, hm]⟩
  · intro req hreq
    cases ht : req.t with
    | limit tif1 => exact ⟨tif1, rfl⟩
  · intro reqs _ req _
    cases ht : req.t with
    | limit tif1 => exact ⟨tif1, rfl⟩

/-- Witness for C10: a market order is dropped before transmission, and a
batch containing one fails as a whole. -/
theorem market_orders_rejected_before_send_witness :
    (create_order true 4 true OrderType.market 1 1000 TimeInForce.GTC false
        ⟨none, none, none⟩).sent = none
    ∧ ∃ msg, build_batch_requests
        [⟨true, 4, true, OrderType.market, 1, 1000, TimeInForce.GTC, false⟩]
        = .error msg :=
  ⟨((market_orders_rejected_before_send true 4 true 1 1000 TimeInForce.GTC
      false ⟨none, none, none⟩ OrderType.market []).1 rfl).1,
    (market_orders_rejected_before_send true 4 true 1 1000 TimeInForce.GTC
      false ⟨none, none, none⟩ OrderType.market
      [⟨true, 4, true, OrderType.market, 1, 1000, TimeInForce.GTC, false⟩]).2.1
      ⟨⟨true, 4, true, OrderType.market, 1, 1000, TimeInForce.GTC, false⟩,
        by simp, rfl⟩⟩

/- ---------------------------------------------------------------------
MockLinearConnector position arithmetic
(src/nexustrader/base/connector.py, _apply_position)
--------------------------------------------------------------------- -/

/-- The two open-position sides. -/
inductive PositionSide where
  | long
  | short
deriving DecidableEq

/-- Modelled from the spec: the Position entity of §3 (`nexustrader/schema.py`
is not under the source tree): `side` is `none` when flat, `signed_amount > 0`
for long and `< 0` for short, `amount` is its absolute value. -/
structure Position where
  side : Option PositionSide
  signed_amount : ℚ
  entry_price : ℚ
  unrealized_pnl : ℚ
  realized_pnl : ℚ
deriving DecidableEq

def Position.is_long (p : Position) : Bool := p.side = some PositionSide.long

def Position.is_short (p : Position) : Bool := p.side = some PositionSide.short

def Position.amount (p : Position) : ℚ := |p.signed_amount|

def Position.is_closed (p : Position) : Bool :=
  p.side = none || p.signed_amount = 0

/-- The fresh position created when no open position exists
(connector.py 570-586). -/
def new_position (isBuy : Bool) (amount price : ℚ) : Position :=
  { side := some (if isBuy then PositionSide.long else PositionSide.short),
    signed_amount := if isBuy then amount else -amount,
    entry_price := price,
    unrealized_pnl := 0,
    realized_pnl := 0 }

/-- `MockLinearConnector._apply_position` (connector.py 560-635), the position
arithmetic for a filled order of size `amount` at trade price `price` (the
cache write-through and the fee application touch other state and are out of
scope).  The field updates mirror the source's statement order; in the flip
branch `position.side` is reassigned before `position.signed_amount` reads
`position.is_long`, so that sign test sees the new side. -/
def apply_position (pos : Option Position) (isBuy : Bool) (amount price : ℚ) :
    Position :=
  match pos with
  | none => new_position isBuy amount price
  | some p =>
    if p.is_closed then new_position isBuy amount price
    else
      let is_same_direction := (isBuy && p.is_long) || (!isBuy && p.is_short)
      let new_amount := p.amount + (if is_same_direction then amount else -amount)
      let p0 :=
        if !is_same_direction then
          let price_diff :=
            if p.is_long then price - p.entry_price else p.entry_price - price
          let closed_amount := min p.amount amount
          { p with realized_pnl := p.realized_pnl + closed_amount * price_diff }
        else p
      if 0 < new_amount then
        let p1 :=
          if is_same_direction then
            { p0 with entry_price :=
                (amount * price + p0.amount * p0.entry_price) / new_amount }
          else p0
        { p1 with signed_amount := if p1.is_long then new_amount else -new_amount }
      else if new_amount < 0 then
        let p1 :=
          { p0 with
            side := some (if p0.is_long then PositionSide.short
              else PositionSide.long) }
        let p2 :=
          { p1 with
            signed_amount := if p1.is_long then -new_amount else new_amount }
        { p2 with entry_price := price, unrealized_pnl := 0 }
      else
        { p0 with side := none, signed_amount := 0 }

/-- C9: an opposite-direction order strictly larger than the open position
flips it: the stored side becomes the opposite side, the entry price is
rewritten to the order's trade price, and the unrealized PnL is reset to 0. -/
theorem apply_position_flip (p : Position) (isBuy : Bool) (amount price : ℚ)
    (hside : p.side
      = some (if isBuy then PositionSide.short else PositionSide.long))
    (hopen : p.signed_amount ≠ 0)
    (hamt : p.amount < amount) :
    (apply_position (some p) isBuy amount price).side
        = some (if isBuy then PositionSide.long else PositionSide.short)
    ∧ (apply_position (some p) isBuy amount price).entry_price = price
    ∧ (apply_position (some p) isBuy amount price).unrealized_pnl = 0 := by
  have hclosed : p.is_closed = false := by
    simp [Position.is_closed, hside, hopen]
  have hneg : p.amount + -amount < 0 := by linarith
  have hnotpos : ¬ (0 : ℚ) < p.amount + -amount := by linarith
  cases isBuy with
  | true =>
    simp only [if_true] at hside ⊢
    refine ⟨?_, ?_, ?_⟩ <;>
      simp [apply_position, hclosed, hside, Position.is_long, Position.is_short,
        hnotpos, hneg]
  | false =>
    simp only [Bool.false_eq_true, if_false] at hside ⊢
    refine ⟨?_, ?_, ?_⟩ <;>
      simp [apply_position, hclosed, hside, Position.is_long, Position.is_short,
        hnotpos, hneg]

/-- Witness for C9: a long position of 1 at entry 100 hit by a sell of 2 at 90
flips to a short position with entry price 90 and zero unrealized PnL. -/
theorem apply_position_flip_witness :
    (apply_position (some ⟨some PositionSide.long, 1, 100, 5, 0⟩)
        false 2 90).side = some PositionSide.short
    ∧ (apply_position (some ⟨some PositionSide.long, 1, 100, 5, 0⟩)
        false 2 90).entry_price = 90
    ∧ (apply_position (some ⟨some PositionSide.long, 1, 100, 5, 0⟩)
        false 2 90).unrealized_pnl = 0 :=
  apply_position_flip ⟨some PositionSide.long, 1, 100, 5, 0⟩ false 2 90
    rfl (by norm_num) (by norm_num [Position.amount])
